import Mathlib

/-!
Verification of the thumbnail-generation utilities of the `james_site`
repository (`generate_thumbnails.py`, `analyze_images.py`).

The Python code is shallowly embedded: the JPEG encoder is abstracted as a
function `encode : ℤ → Option (List ℕ)` mapping a quality level to the encoded
byte string (`none` models `img.save` raising an exception), and the control
flow of `compress_to_target_size` — including its Python-specific failure
modes (propagated exception, `UnboundLocalError` on the fallback return) — is
reproduced faithfully.
-/

set_option autoImplicit false

namespace JamesSite

/-- Outcome of a call to the Python function `compress_to_target_size`:
it can return a byte string, propagate an exception raised by `img.save`,
or crash with `UnboundLocalError` when the fallback `return output.getvalue()`
runs while the local variable `output` was never assigned. -/
inductive PyOutcome where
  | returned (bytes : List ℕ)
  | raised
  | unboundLocal
deriving DecidableEq

/-- The fallback `return output.getvalue()` after the loop of
`compress_to_target_size`: if the Python local `output` was assigned, its
bytes are returned; otherwise the statement raises `UnboundLocalError`. -/
def fallbackReturn (last : Option (List ℕ)) : PyOutcome :=
  match last with
  | some bytes => .returned bytes
  | none => .unboundLocal

/-- The `while quality > 10` loop of `compress_to_target_size`
(generate_thumbnails.py lines 37-52).  `last` is the current value of the
Python local `output` (as a byte string), `none` meaning not yet assigned.
Each iteration encodes at the current quality (`none` = `img.save` raised, the
exception propagates), returns the bytes as soon as `size <= target_bytes`,
and otherwise decrements the quality by `quality_step`.  On loop exit the
fallback `return output.getvalue()` returns the last encoding, or hits
`UnboundLocalError` if no iteration ever assigned `output`. -/
def compressLoop (encode : ℤ → Option (List ℕ)) (target_bytes : ℕ)
    (quality_step : ℤ) (hstep : 0 < quality_step)
    (last : Option (List ℕ)) (quality : ℤ) : PyOutcome :=
  if _h : 10 < quality then
    match encode quality with
    | none => .raised
    | some bytes =>
      if bytes.length ≤ target_bytes then .returned bytes
      else compressLoop encode target_bytes quality_step hstep (some bytes)
        (quality - quality_step)
  else fallbackReturn last
termination_by (quality - 10).toNat
decreasing_by omega

/-- `compress_to_target_size(img, target_bytes, initial_quality, quality_step)`
from generate_thumbnails.py, with the image and the JPEG encoder abstracted
into `encode`.  (The positivity proof for the step is required for the
function to be total, matching the fact that the Python loop only terminates
for a positive step.) -/
def compress_to_target_size (encode : ℤ → Option (List ℕ)) (target_bytes : ℕ)
    (initial_quality quality_step : ℤ) (hstep : 0 < quality_step) : PyOutcome :=
  compressLoop encode target_bytes quality_step hstep none initial_quality

/-- The list of quality levels at which the loop of `compress_to_target_size`
starts an encode attempt, in order. -/
def compressQualities (encode : ℤ → Option (List ℕ)) (target_bytes : ℕ)
    (quality_step : ℤ) (hstep : 0 < quality_step) (quality : ℤ) : List ℤ :=
  if _h : 10 < quality then
    match encode quality with
    | none => [quality]
    | some bytes =>
      if bytes.length ≤ target_bytes then [quality]
      else quality :: compressQualities encode target_bytes quality_step hstep
        (quality - quality_step)
  else []
termination_by (quality - 10).toNat
decreasing_by omega

/-- If the encodings at qualities `q, q-S, …, q-(k-1)S` all exceed the budget
and the one at `q - kS` (still above the floor) fits, the loop returns the
encoding at `q - kS`, whatever the prior value of `output`. -/
lemma compressLoop_first_fit (enc : ℤ → List ℕ) (B : ℕ) (S : ℤ) (hS : 0 < S) :
    ∀ (k : ℕ) (q : ℤ) (last : Option (List ℕ)),
      10 < q - k * S →
      (∀ i : ℕ, i < k → B < (enc (q - i * S)).length) →
      (enc (q - k * S)).length ≤ B →
      compressLoop (fun x => some (enc x)) B S hS last q =
        .returned (enc (q - k * S)) := by
  intro k
  induction k with
  | zero =>
    intro q last hq hmiss hfit
    rw [compressLoop.eq_def]
    simp only [Nat.cast_zero, zero_mul, sub_zero] at hq hfit ⊢
    simp [hq, hfit]
  | succ k ih =>
    intro q last hq hmiss hfit
    have hone : (1 : ℤ) ≤ ((k + 1 : ℕ) : ℤ) := by exact_mod_cast Nat.one_le_iff_ne_zero.mpr (Nat.succ_ne_zero k)
    have hkS : S ≤ ((k + 1 : ℕ) : ℤ) * S := le_mul_of_one_le_left (le_of_lt hS) hone
    have hq0 : 10 < q := by linarith
    have hmiss0 : B < (enc q).length := by
      have h0 := hmiss 0 (Nat.succ_pos k)
      simpa using h0
    rw [compressLoop.eq_def]
    simp only [dif_pos hq0]
    rw [if_neg (not_le.mpr hmiss0)]
    have harg : q - ((k + 1 : ℕ) : ℤ) * S = q - S - (k : ℤ) * S := by push_cast; ring
    rw [harg] at hq ⊢
    refine ih (q - S) (some (enc q)) hq ?_ (by rw [← harg]; exact hfit)
    intro i hi
    have harg2 : q - S - (i : ℤ) * S = q - ((i + 1 : ℕ) : ℤ) * S := by push_cast; ring
    rw [harg2]
    exact hmiss (i + 1) (Nat.succ_lt_succ hi)

/-- If every encoding down to the lowest above-floor quality `q - kS` exceeds
the budget, the loop falls through and returns the encoding at `q - kS`
(the last one assigned to `output`). -/
lemma compressLoop_exhaust (enc : ℤ → List ℕ) (B : ℕ) (S : ℤ) (hS : 0 < S) :
    ∀ (k : ℕ) (q : ℤ) (last : Option (List ℕ)),
      10 < q - k * S →
      q - ((k + 1 : ℕ) : ℤ) * S ≤ 10 →
      (∀ i : ℕ, i ≤ k → B < (enc (q - i * S)).length) →
      compressLoop (fun x => some (enc x)) B S hS last q =
        .returned (enc (q - k * S)) := by
  intro k
  induction k with
  | zero =>
    intro q last hq hstop hmiss
    simp only [Nat.cast_zero, zero_mul, sub_zero] at hq ⊢
    have hstop1 : q - S ≤ 10 := by
      have : ((0 + 1 : ℕ) : ℤ) * S = S := by push_cast; ring
      rw [this] at hstop; exact hstop
    have hmiss0 : B < (enc q).length := by simpa using hmiss 0 (le_refl 0)
    rw [compressLoop.eq_def]
    simp only [dif_pos hq]
    rw [if_neg (not_le.mpr hmiss0)]
    rw [compressLoop.eq_def]
    simp [not_lt.mpr hstop1, fallbackReturn]
  | succ k ih =>
    intro q last hq hstop hmiss
    have hone : (1 : ℤ) ≤ ((k + 1 : ℕ) : ℤ) := by exact_mod_cast Nat.one_le_iff_ne_zero.mpr (Nat.succ_ne_zero k)
    have hkS : S ≤ ((k + 1 : ℕ) : ℤ) * S := le_mul_of_one_le_left (le_of_lt hS) hone
    have hq0 : 10 < q := by linarith
    have hmiss0 : B < (enc q).length := by simpa using hmiss 0 (Nat.zero_le _)
    rw [compressLoop.eq_def]
    simp only [dif_pos hq0]
    rw [if_neg (not_le.mpr hmiss0)]
    have harg : q - ((k + 1 : ℕ) : ℤ) * S = q - S - (k : ℤ) * S := by push_cast; ring
    have harg3 : q - ((k + 1 + 1 : ℕ) : ℤ) * S = q - S - ((k + 1 : ℕ) : ℤ) * S := by
      push_cast; ring
    rw [harg] at hq ⊢
    rw [harg3] at hstop
    refine ih (q - S) (some (enc q)) hq hstop ?_
    intro i hi
    have harg2 : q - S - (i : ℤ) * S = q - ((i + 1 : ℕ) : ℤ) * S := by push_cast; ring
    rw [harg2]
    exact hmiss (i + 1) (Nat.succ_le_succ hi)

/-- Claim C1: for every image (encoder), target budget `B`, starting quality
`Q0 > 10` and step `S > 0`, `compress_to_target_size` encodes at qualities
`Q0, Q0-S, Q0-2S, …` in order and returns the very first encoding whose byte
length is `≤ B` (index `k` below), attempting no lower quality afterwards;
with `k = 0` this specializes to: if the encoding at `Q0` already fits, the
quality-`Q0` encoding itself is returned. -/
theorem compress_first_fit (enc : ℤ → List ℕ) (B : ℕ) (Q0 S : ℤ) (hS : 0 < S)
    (k : ℕ) (hq : 10 < Q0 - k * S)
    (hmiss : ∀ i : ℕ, i < k → B < (enc (Q0 - i * S)).length)
    (hfit : (enc (Q0 - k * S)).length ≤ B) :
    compress_to_target_size (fun q => some (enc q)) B Q0 S hS =
      .returned (enc (Q0 - k * S)) :=
  compressLoop_first_fit enc B S hS k Q0 none hq hmiss hfit

/-- Witness for C1: with byte strings of length equal to the quality, budget
80, start 85, step 5, the first fit is at quality 80 and its encoding is
returned. -/
theorem compress_first_fit_witness :
    compress_to_target_size (fun q => some (List.replicate q.toNat 0)) 80 85 5
      (by norm_num) = .returned (List.replicate 80 0) := by
  have h := compress_first_fit (fun q => List.replicate q.toNat 0) 80 85 5
    (by norm_num) 1 (by norm_num)
    (by
      intro i hi
      have h0 : i = 0 := by omega
      subst h0
      norm_num)
    (by norm_num)
  simpa using h

/-- Claim C2: if no attempted quality produces an encoding within the budget,
`compress_to_target_size` returns (rather than raising) the encoding at the
lowest quality actually attempted, `Q0 - kS` for the largest `k` with
`Q0 - kS > 10`. -/
theorem compress_fallback_lowest_attempted (enc : ℤ → List ℕ) (B : ℕ)
    (Q0 S : ℤ) (hS : 0 < S) (k : ℕ)
    (hk : 10 < Q0 - k * S) (hk1 : Q0 - ((k + 1 : ℕ) : ℤ) * S ≤ 10)
    (hall : ∀ i : ℕ, i ≤ k → B < (enc (Q0 - i * S)).length) :
    compress_to_target_size (fun q => some (enc q)) B Q0 S hS =
      .returned (enc (Q0 - k * S)) :=
  compressLoop_exhaust enc B S hS k Q0 none hk hk1 hall

/-- Witness for C2: with the module defaults `Q0 = 85`, `S = 5` and an
unreachable budget `0`, the returned encoding is the one made at quality 15
(the lowest attempted level, not the floor 10). -/
theorem compress_fallback_lowest_attempted_witness :
    compress_to_target_size (fun q => some [q.toNat]) 0 85 5 (by norm_num) =
      .returned [15] := by
  have h := compress_fallback_lowest_attempted (fun q => [q.toNat]) 0 85 5
    (by norm_num) 14 (by norm_num) (by norm_num)
    (by intro i _hi; simp)
  simpa using h

/-- Claim C3: there is an input on which `compress_to_target_size` reaches its
fallback return without any loop iteration ever having completed (here:
`initial_quality = 10`, so the loop body never runs and `output` is never
assigned), and the fallback then references the unassigned variable, so the
call fails with `UnboundLocalError` instead of returning data or raising a
clear encode-failed error. -/
theorem compress_unbound_fallback :
    compress_to_target_size (fun _ => some (List.replicate 1000 0)) (250 * 1024)
      10 5 (by norm_num) = .unboundLocal := by
  rw [compress_to_target_size, compressLoop.eq_def]
  norm_num [fallbackReturn]

/-- When the starting quality is at or below the floor 10, the loop performs
no encode attempt at all. -/
lemma compressQualities_eq_nil (encode : ℤ → Option (List ℕ)) (B : ℕ)
    (S : ℤ) (hS : 0 < S) (q : ℤ) (hq : q ≤ 10) :
    compressQualities encode B S hS q = [] := by
  rw [compressQualities.eq_def]
  simp [not_lt.mpr hq]

/-- Linear bound on the number of encode attempts: each attempt lowers the
quality by `S`, and all attempted qualities stay above 10. -/
lemma compressQualities_length_bound (encode : ℤ → Option (List ℕ)) (B : ℕ)
    (S : ℤ) (hS : 0 < S) :
    ∀ (n : ℕ) (q : ℤ), (q - 10).toNat ≤ n → 10 < q →
      S * ((compressQualities encode B S hS q).length : ℤ) < q - 10 + S := by
  intro n
  induction n with
  | zero =>
    intro q hn hq
    exact absurd hq (by omega)
  | succ n ih =>
    intro q hn hq
    rw [compressQualities.eq_def]
    simp only [dif_pos hq]
    cases henc : encode q with
    | none =>
      simp only [List.length_singleton]
      push_cast
      linarith
    | some bytes =>
      by_cases hfit : bytes.length ≤ B
      · simp only [if_pos hfit, List.length_singleton]
        push_cast
        linarith
      · simp only [if_neg hfit, List.length_cons]
        by_cases hq2 : 10 < q - S
        · have hrec := ih (q - S) (by omega) hq2
          have hexp : S * (((compressQualities encode B S hS (q - S)).length : ℤ) + 1) =
              S * ((compressQualities encode B S hS (q - S)).length : ℤ) + S := by ring
          push_cast
          rw [hexp]
          linarith
        · rw [compressQualities_eq_nil encode B S hS (q - S) (not_lt.1 hq2)]
          simp only [List.length_nil]
          push_cast
          linarith

/-- Counterexample to C4 as stated: with `Q0 = 14`, `S = 5` and an encoder
that never fits the budget, the loop performs 1 encode iteration, yet
`(Q0-10)/S` is `4/5 < 1` as a rational and `0 < 1` under integer floor
division — so "at most `(Q0-10)/S` iterations" fails on either reading. -/
theorem compress_iteration_bound_counterexample :
    (compressQualities (fun _ => some (List.replicate 10 0)) 1 5 (by norm_num)
        14).length = 1 ∧
      ((14 : ℚ) - 10) / 5 < 1 ∧ ((14 : ℤ) - 10) / 5 < 1 := by
  refine ⟨?_, by norm_num, by decide⟩
  rw [compressQualities.eq_def]
  norm_num
  rw [compressQualities_eq_nil _ _ _ _ 9 (by norm_num)]

/-- Claim C4 (amended): for every encoder, budget, starting quality `Q0` and
step `S > 0`, the quality-search loop terminates (the embedding is a total
function) after at most `⌈(Q0-10)/S⌉` encode iterations when `Q0 > 10`, and
after none when `Q0 ≤ 10`; with the module defaults `QUALITY_START = 85` and
`QUALITY_STEP = 5` it performs at most 15 iterations. -/
theorem compress_iteration_bound (encode : ℤ → Option (List ℕ)) (B : ℕ)
    (Q0 S : ℤ) (hS : 0 < S) :
    (10 < Q0 →
      ((compressQualities encode B S hS Q0).length : ℤ) ≤
        ⌈((Q0 : ℚ) - 10) / (S : ℚ)⌉) ∧
    (Q0 ≤ 10 → compressQualities encode B S hS Q0 = []) ∧
    (compressQualities encode B 5 (by norm_num) 85).length ≤ 15 := by
  refine ⟨?_, fun h => compressQualities_eq_nil encode B S hS Q0 h, ?_⟩
  · intro hQ
    have hb := compressQualities_length_bound encode B S hS (Q0 - 10).toNat Q0
      (le_refl _) hQ
    set len : ℤ := ((compressQualities encode B S hS Q0).length : ℤ) with hlen
    have hb2 : (len - 1) * S < Q0 - 10 := by
      have hx : (len - 1) * S = S * len - S := by ring
      rw [hx]
      linarith
    have h2 : len - 1 < ⌈((Q0 : ℚ) - 10) / (S : ℚ)⌉ := by
      rw [Int.lt_ceil]
      have hSQ : (0 : ℚ) < (S : ℚ) := by exact_mod_cast hS
      rw [lt_div_iff₀ hSQ]
      exact_mod_cast hb2
    linarith
  · have h15 : ∀ (hp : (0 : ℤ) < 5),
        (compressQualities encode B 5 hp 85).length ≤ 15 := by
      intro hp
      have hb := compressQualities_length_bound encode B 5 hp 75 85
        (by norm_num) (by norm_num)
      omega
    exact h15 (by norm_num)

/-- Witness for the amended C4 at the module defaults: start 85, step 5,
encoder returning empty byte strings, budget 0. -/
theorem compress_iteration_bound_witness :
    ((compressQualities (fun _ => some ([] : List ℕ)) 0 5 (by norm_num)
        85).length : ℤ) ≤ ⌈(((85 : ℤ) : ℚ) - 10) / ((5 : ℤ) : ℚ)⌉ ∧
      (compressQualities (fun _ => some ([] : List ℕ)) 0 5 (by norm_num)
        85).length ≤ 15 := by
  constructor
  · exact (compress_iteration_bound (fun _ => some []) 0 85 5 (by norm_num)).1
      (by norm_num)
  · exact (compress_iteration_bound (fun _ => some []) 0 85 5 (by norm_num)).2.2

/-- For an encoder that never raises, the loop always ends by returning the
bytes encoded at the last quality it attempted. -/
lemma compressLoop_total_returns_last (enc : ℤ → List ℕ) (B : ℕ) (S : ℤ)
    (hS : 0 < S) :
    ∀ (n : ℕ) (q : ℤ) (last : Option (List ℕ)), (q - 10).toNat ≤ n → 10 < q →
      ∃ w, (compressQualities (fun x => some (enc x)) B S hS q).getLast? =
          some w ∧
        compressLoop (fun x => some (enc x)) B S hS last q =
          .returned (enc w) := by
  intro n
  induction n with
  | zero =>
    intro q last hn hq
    exact absurd hq (by omega)
  | succ n ih =>
    intro q last hn hq
    by_cases hfit : (enc q).length ≤ B
    · refine ⟨q, ?_, ?_⟩
      · rw [compressQualities.eq_def]
        simp [hq, hfit]
      · rw [compressLoop.eq_def]
        simp [hq, hfit]
    · by_cases hq2 : 10 < q - S
      · obtain ⟨w, hw1, hw2⟩ := ih (q - S) (some (enc q)) (by omega) hq2
        refine ⟨w, ?_, ?_⟩
        · rw [compressQualities.eq_def]
          simp only [dif_pos hq]
          cases htail : compressQualities (fun x => some (enc x)) B S hS (q - S) with
          | nil =>
            rw [htail] at hw1
            simp at hw1
          | cons b t =>
            rw [htail] at hw1
            simp [hfit, List.getLast?_cons_cons, hw1]
        · rw [compressLoop.eq_def]
          simp only [dif_pos hq]
          simpa [hfit] using hw2
      · refine ⟨q, ?_, ?_⟩
        · rw [compressQualities.eq_def]
          simp [hq, hfit,
            compressQualities_eq_nil _ _ _ _ (q - S) (not_lt.1 hq2)]
        · rw [compressLoop.eq_def]
          simp only [dif_pos hq]
          rw [compressLoop.eq_def]
          simp [hfit, not_lt.1 hq2, fallbackReturn]

/-- Counterexample to C5 as stated: two runs of `compress_to_target_size`
return the very same value `.returned [0]`, although the quality that produced
it is 85 in the first run and 80 in the second (the last attempted quality).
Hence the return value does not contain — and the caller cannot recover from
it — the quality level that produced the bytes. -/
theorem compress_result_lacks_quality :
    compress_to_target_size (fun q => some (if q = 85 then [0] else [9, 9])) 1
        85 5 (by norm_num) = .returned [0] ∧
      compress_to_target_size (fun q => some (if q = 85 then [5, 5] else [0])) 1
        85 5 (by norm_num) = .returned [0] ∧
      compressQualities (fun q => some (if q = 85 then [0] else [9, 9])) 1 5
        (by norm_num) 85 = [85] ∧
      compressQualities (fun q => some (if q = 85 then [5, 5] else [0])) 1 5
        (by norm_num) 85 = [85, 80] := by
  refine ⟨?_, ?_, ?_, ?_⟩
  · rw [compress_to_target_size, compressLoop.eq_def]
    norm_num
  · rw [compress_to_target_size, compressLoop.eq_def]
    norm_num
    rw [compressLoop.eq_def]
    norm_num
  · rw [compressQualities.eq_def]
    norm_num
  · rw [compressQualities.eq_def]
    norm_num
    rw [compressQualities.eq_def]
    norm_num

/-- Claim C5 (amended): the value produced by `compress_to_target_size` is
only the final encoded byte sequence — the bytes made at the last quality
level the loop attempted (the winning level, or the lowest attempted level if
none met the budget); the quality level itself is not part of the return
value. -/
theorem compress_returns_bytes_of_last_attempt (enc : ℤ → List ℕ) (B : ℕ)
    (Q0 S : ℤ) (hS : 0 < S) (hQ : 10 < Q0) :
    ∃ w, (compressQualities (fun q => some (enc q)) B S hS Q0).getLast? =
        some w ∧
      compress_to_target_size (fun q => some (enc q)) B Q0 S hS =
        .returned (enc w) :=
  compressLoop_total_returns_last enc B S hS (Q0 - 10).toNat Q0 none
    (le_refl _) hQ

/-- Witness for the amended C5: start 12, step 5, unreachable budget 0. -/
theorem compress_returns_bytes_of_last_attempt_witness :
    ∃ w, (compressQualities (fun q => some [q.toNat]) 0 5 (by norm_num)
        12).getLast? = some w ∧
      compress_to_target_size (fun q => some [q.toNat]) 0 12 5 (by norm_num) =
        .returned [w.toNat] :=
  compress_returns_bytes_of_last_attempt (fun q => [q.toNat]) 0 12 5
    (by norm_num) (by norm_num)

/-- The PIL resampling filters that `Image.resize` accepts. -/
inductive ResampleFilter where
  | nearest
  | box
  | bilinear
  | hamming
  | bicubic
  | lanczos
deriving DecidableEq

/-- Python `int()` applied to a (here exactly represented) number: truncation
toward zero. -/
def pyInt (x : ℚ) : ℤ :=
  if 0 ≤ x then ⌊x⌋ else -⌊-x⌋

/-- `resize_with_aspect_ratio(img, scale_factor)` from generate_thumbnails.py:
`new_width = int(img.width * scale_factor)`,
`new_height = int(img.height * scale_factor)`, and the image is resized to
those dimensions with `Image.Resampling.LANCZOS`.  The result models the
dimensions of the returned image together with the filter used. -/
def resize_with_aspect_ratio (width height : ℤ) (scale_factor : ℚ) :
    (ℤ × ℤ) × ResampleFilter :=
  ((pyInt (width * scale_factor), pyInt (height * scale_factor)),
    ResampleFilter.lanczos)

/-- Claim C6: for every image with positive dimensions `(W, H)` and every
scale factor `0 < f ≤ 1`, `resize_with_aspect_ratio` produces width
`⌊W*f⌋` and height `⌊H*f⌋` (truncation, not rounding), using Lanczos
resampling; and it performs no guard when a computed dimension is 0: at
`W = 3`, `f = 1/4` the produced width is `⌊3/4⌋ = 0` (where rounding would
give 1), the failure being left to the downstream encode step. -/
theorem resize_truncates_dimensions (W H : ℕ) (f : ℚ) (hW : 0 < W) (hH : 0 < H)
    (hf0 : 0 < f) (_hf1 : f ≤ 1) :
    resize_with_aspect_ratio (W : ℤ) (H : ℤ) f =
        ((⌊(W : ℚ) * f⌋, ⌊(H : ℚ) * f⌋), ResampleFilter.lanczos) ∧
      (resize_with_aspect_ratio ((3 : ℕ) : ℤ) (H : ℤ) (1 / 4)).1.1 = 0 := by
  constructor
  · have hWc : (((W : ℤ) : ℚ)) = (W : ℚ) := by push_cast; ring
    have hHc : (((H : ℤ) : ℚ)) = (H : ℚ) := by push_cast; ring
    have h1 : (0 : ℚ) ≤ ((W : ℤ) : ℚ) * f := by
      apply mul_nonneg _ (le_of_lt hf0)
      rw [hWc]
      positivity
    have h2 : (0 : ℚ) ≤ ((H : ℤ) : ℚ) * f := by
      apply mul_nonneg _ (le_of_lt hf0)
      rw [hHc]
      positivity
    rw [resize_with_aspect_ratio, pyInt, pyInt, if_pos h1, if_pos h2, hWc, hHc]
  · have h3 : (((3 : ℕ) : ℤ) : ℚ) * (1 / 4) = 3 / 4 := by norm_num
    have h0 : (0 : ℚ) ≤ 3 / 4 := by norm_num
    rw [resize_with_aspect_ratio]
    simp only [pyInt, h3, if_pos h0]
    rw [Int.floor_eq_zero_iff]
    constructor <;> norm_num

/-- Witness for C6: a 2000×1000 image at factor 1/4 resizes to 500×250 with
Lanczos, and a width-3 image at factor 1/4 gets width 0. -/
theorem resize_truncates_dimensions_witness :
    resize_with_aspect_ratio ((2000 : ℕ) : ℤ) ((1000 : ℕ) : ℤ) (1 / 4) =
        ((500, 250), ResampleFilter.lanczos) ∧
      (resize_with_aspect_ratio ((3 : ℕ) : ℤ) ((1000 : ℕ) : ℤ) (1 / 4)).1.1 =
        0 := by
  obtain ⟨h1, h2⟩ := resize_truncates_dimensions 2000 1000 (1 / 4)
    (by norm_num) (by norm_num) (by norm_num) (by norm_num)
  refine ⟨?_, h2⟩
  rw [h1]
  have ha : ((2000 : ℕ) : ℚ) * (1 / 4) = 500 := by norm_num
  have hb : ((1000 : ℕ) : ℚ) * (1 / 4) = 250 := by norm_num
  rw [ha, hb]
  norm_num

/-- The literal `IMAGE_EXTENSIONS` set, identical in generate_thumbnails.py
and analyze_images.py. -/
def IMAGE_EXTENSIONS : List String :=
  [".jpg", ".jpeg", ".png", ".gif", ".bmp", ".webp", ".tiff", ".JPG", ".JPEG",
    ".PNG"]

/-- Index of the last `'.'` in a character list (CPython `str.rfind`),
`none` when there is no dot. -/
def pyRFindDot (cs : List Char) : Option ℕ :=
  (cs.reverse.findIdx? (fun c => c = '.')).map (fun j => cs.length - 1 - j)

/-- `pathlib.PurePath.suffix`: the part of the name from its last dot on,
provided that dot is neither the first nor the last character; otherwise
the empty string. -/
def pySuffix (s : String) : String :=
  match pyRFindDot s.data with
  | none => ""
  | some i =>
    if 0 < i ∧ i < s.data.length - 1 then String.mk (s.data.drop i) else ""

/-- `pathlib.PurePath.stem`: the name with `pySuffix` removed. -/
def pyStem (s : String) : String :=
  match pyRFindDot s.data with
  | none => s
  | some i =>
    if 0 < i ∧ i < s.data.length - 1 then String.mk (s.data.take i) else s

/-- A directory entry as seen by `Path.iterdir()`: a name and whether it is a
regular file. -/
structure DirEntry where
  name : String
  isFile : Bool
deriving DecidableEq

/-- The scan shared by `analyze_images` (analyze_images.py lines 23-31) and
`generate_thumbnails` (generate_thumbnails.py lines 64-71): keep the entries
that are regular files whose `suffix` is in `IMAGE_EXTENSIONS`, then sort by
filename. -/
def scanImageFiles (entries : List DirEntry) : List String :=
  ((entries.filter
      (fun e => e.isFile && decide (pySuffix e.name ∈ IMAGE_EXTENSIONS))).map
    DirEntry.name).mergeSort (fun a b => decide (a ≤ b))

/-- Claim C7: the image scans select exactly the regular files whose extension
is a member of the literal set `IMAGE_EXTENSIONS` (exact case-sensitive
membership — a mixed-case extension like `.Jpg` is not selected, while `.JPG`
is), and the selected files are processed in ascending filename order. -/
theorem scan_selects_extensions (entries : List DirEntry) (name : String) :
    (name ∈ scanImageFiles entries ↔
        ∃ e ∈ entries, e.name = name ∧ e.isFile = true ∧
          pySuffix name ∈ IMAGE_EXTENSIONS) ∧
      (scanImageFiles entries).Sorted (· ≤ ·) ∧
      pySuffix "photo.Jpg" = ".Jpg" ∧ ".Jpg" ∉ IMAGE_EXTENSIONS ∧
      pySuffix "photo.JPG" ∈ IMAGE_EXTENSIONS := by
  refine ⟨?_, ?_, by decide, by decide, by decide⟩
  · rw [scanImageFiles, List.mem_mergeSort]
    simp only [List.mem_map, List.mem_filter, Bool.and_eq_true,
      decide_eq_true_eq]
    constructor
    · rintro ⟨e, ⟨he, hf, hs⟩, rfl⟩
      exact ⟨e, he, rfl, hf, hs⟩
    · rintro ⟨e, he, rfl, hf, hs⟩
      exact ⟨e, ⟨he, hf, hs⟩, rfl⟩
  · have hp := @List.sorted_mergeSort String (fun a b => decide (a ≤ b))
      (fun a b c hab hbc => by
        simp only [decide_eq_true_eq] at hab hbc ⊢
        exact le_trans hab hbc)
      (fun a b => by
        simp only [Bool.or_eq_true, decide_eq_true_eq]
        exact le_total a b)
      ((entries.filter
          (fun e => e.isFile &&
            decide (pySuffix e.name ∈ IMAGE_EXTENSIONS))).map DirEntry.name)
    exact List.Pairwise.imp (fun h => of_decide_eq_true h) hp

/-- The mode-normalization step of `generate_thumbnails`
(generate_thumbnails.py lines 88-89): `if img.mode not in ("RGB", "L"):
img = img.convert("RGB")`.  Returns the mode of the image that reaches the
resize and JPEG-encode steps. -/
def normalizeModeForEncode (mode : String) : String :=
  if mode ∉ (["RGB", "L"] : List String) then "RGB" else mode

/-- Claim C8: the image handed to the resize and JPEG-encode steps always has
a mode the encoder supports — `RGB` or `L`; any image whose decoded mode is
outside that set is first converted to RGB, and one already in the set is
left unchanged. -/
theorem mode_normalized_before_encode (m : String) :
    (normalizeModeForEncode m = "RGB" ∨ normalizeModeForEncode m = "L") ∧
      (m ∉ (["RGB", "L"] : List String) → normalizeModeForEncode m = "RGB") ∧
      (m ∈ (["RGB", "L"] : List String) → normalizeModeForEncode m = m) := by
  by_cases h : m ∈ (["RGB", "L"] : List String)
  · have hm : normalizeModeForEncode m = m := by
      rw [normalizeModeForEncode, if_neg (not_not_intro h)]
    refine ⟨?_, fun hn => absurd h hn, fun _ => hm⟩
    rw [hm]
    simpa using h
  · have hm : normalizeModeForEncode m = "RGB" := by
      rw [normalizeModeForEncode, if_pos h]
    exact ⟨Or.inl hm, fun _ => hm, fun hmem => absurd hmem h⟩

/-- Witness for C8: a CMYK image is converted to RGB before encoding, and a
grayscale (`L`) image is left unchanged. -/
theorem mode_normalized_before_encode_witness :
    (normalizeModeForEncode "CMYK" = "RGB" ∨
        normalizeModeForEncode "CMYK" = "L") ∧
      normalizeModeForEncode "CMYK" = "RGB" ∧
      normalizeModeForEncode "L" = "L" :=
  ⟨(mode_normalized_before_encode "CMYK").1,
    (mode_normalized_before_encode "CMYK").2.1 (by decide),
    (mode_normalized_before_encode "L").2.2 (by decide)⟩

/-- One line of console output of the batch loop of `generate_thumbnails`. -/
inductive OutLine where
  | success (name : String)
  | failure (name : String) (msg : String)
  | summary (generated : ℕ)
deriving DecidableEq

/-- Whether the per-file body completed without an exception. -/
def runOk {α : Type} (r : Except String α) : Bool :=
  match r with
  | .ok _ => true
  | .error _ => false

/-- The per-file loop of `generate_thumbnails` (generate_thumbnails.py lines
79-126): each file is processed inside `try/except Exception`; success prints
a ✓ line, a caught exception prints a ✗ line with the message, and the loop
continues with the next file either way.  `run` abstracts the body of the
`try` block (open, convert, resize, compress, write). -/
def processFiles (run : String → Except String Unit) :
    List String → List OutLine
  | [] => []
  | f :: rest =>
    match run f with
    | .ok _ => .success f :: processFiles run rest
    | .error e => .failure f e :: processFiles run rest

/-- The full console output of `generate_thumbnails`: the per-file lines
followed by the summary line, whose count `len(results)` is the number of
files whose body completed. -/
def generateThumbnailsReport (run : String → Except String Unit)
    (files : List String) : List OutLine :=
  processFiles run files ++
    [.summary (files.countP (fun f => runOk (run f)))]

lemma processFiles_append (run : String → Except String Unit)
    (a b : List String) :
    processFiles run (a ++ b) = processFiles run a ++ processFiles run b := by
  induction a with
  | nil => simp [processFiles]
  | cons x xs ih =>
    cases hx : run x with
    | ok u => simp [processFiles, hx, ih]
    | error e => simp [processFiles, hx, ih]

lemma processFiles_length (run : String → Except String Unit)
    (l : List String) : (processFiles run l).length = l.length := by
  induction l with
  | nil => simp [processFiles]
  | cons x xs ih =>
    cases hx : run x with
    | ok u => simp [processFiles, hx, ih]
    | error e => simp [processFiles, hx, ih]

/-- Claim C9: if processing one file raises, the error is caught at single-file
granularity and reported as exactly one output line, the files after the
failing one are still processed (one line each), and the summary is still
printed (counting only the successes). -/
theorem per_file_errors_do_not_abort (run : String → Except String Unit)
    (pre rest : List String) (f : String) (msg : String)
    (h : run f = .error msg) :
    generateThumbnailsReport run (pre ++ f :: rest) =
        processFiles run pre ++ .failure f msg :: processFiles run rest ++
          [.summary (pre.countP (fun x => runOk (run x)) +
            rest.countP (fun x => runOk (run x)))] ∧
      (processFiles run rest).length = rest.length := by
  refine ⟨?_, processFiles_length run rest⟩
  rw [generateThumbnailsReport, processFiles_append]
  simp [processFiles, h, runOk, List.countP_append, List.countP_cons]

/-- Witness for C9: three files where the middle one fails; the other two are
still processed and the summary counts the two successes. -/
theorem per_file_errors_do_not_abort_witness :
    generateThumbnailsReport
        (fun f => if f = "b.png" then .error "broken" else .ok ())
        ["a.png", "b.png", "c.png"] =
      [.success "a.png", .failure "b.png" "broken", .success "c.png",
        .summary 2] := by
  have h := (per_file_errors_do_not_abort
    (fun f => if f = "b.png" then .error "broken" else .ok ())
    ["a.png"] ["c.png"] "b.png" "broken" rfl).1
  rw [show (["a.png", "b.png", "c.png"] : List String) =
    ["a.png"] ++ "b.png" :: ["c.png"] from rfl]
  rw [h]
  decide

/-- The output path of generate_thumbnails.py line 101:
`OUTPUT_DIR / f"{img_path.stem}.jpg"`. -/
def output_path (name : String) : String :=
  "assets/thumbnails/" ++ pyStem name ++ ".jpg"

/-- The ordered `(path, bytes)` writes performed by the loop of
`generate_thumbnails` (lines 100-103); `encodeFile` abstracts the per-file
pipeline producing the thumbnail bytes (`none` = the file errored, so no
write happens). -/
def thumbnailWrites (encodeFile : String → Option (List ℕ))
    (files : List String) : List (String × List ℕ) :=
  files.filterMap (fun f => (encodeFile f).map (fun d => (output_path f, d)))

/-- The file contents at path `p` after performing `writes` in order: the last
write to `p` wins (`open(output_path, "wb")` truncates and overwrites). -/
def finalContents (writes : List (String × List ℕ)) (p : String) :
    Option (List ℕ) :=
  writes.foldl (fun acc w => if w.1 = p then some w.2 else acc) none

/-- Claim C10: each thumbnail is written to `OUTPUT_DIR/(stem + ".jpg")`,
dropping the original extension, so any two source names with equal stems map
to the same output path; in particular `a.png` and `a.jpg` collide, both
writes go to the same path in filename order, and the later one (`a.png`)
silently overwrites the earlier one's thumbnail. -/
theorem output_path_collision (enc : String → Option (List ℕ))
    (d1 d2 : List ℕ) (h1 : enc "a.jpg" = some d1)
    (h2 : enc "a.png" = some d2) :
    (∀ n1 n2 : String, pyStem n1 = pyStem n2 →
        output_path n1 = output_path n2) ∧
      output_path "a.png" = output_path "a.jpg" ∧
      thumbnailWrites enc ["a.jpg", "a.png"] =
        [(output_path "a.jpg", d1), (output_path "a.jpg", d2)] ∧
      finalContents (thumbnailWrites enc ["a.jpg", "a.png"])
        (output_path "a.jpg") = some d2 := by
  have hcol : output_path "a.png" = output_path "a.jpg" := by decide
  have h3 : thumbnailWrites enc ["a.jpg", "a.png"] =
      [(output_path "a.jpg", d1), (output_path "a.jpg", d2)] := by
    simp [thumbnailWrites, h1, h2, hcol]
  refine ⟨fun n1 n2 h => by rw [output_path, output_path, h], hcol, h3, ?_⟩
  rw [h3, finalContents]
  simp

/-- Witness for C10: with concrete thumbnail bytes `[1]` for `a.jpg` and `[2]`
for `a.png`, the final contents at the shared output path are `[2]`. -/
theorem output_path_collision_witness :
    output_path "a.png" = output_path "a.jpg" ∧
      finalContents
          (thumbnailWrites
            (fun f => if f = "a.jpg" then some [1] else some [2])
            ["a.jpg", "a.png"]) (output_path "a.jpg") = some [2] := by
  have h := output_path_collision
    (fun f => if f = "a.jpg" then some [1] else some [2]) [1] [2]
    (by decide) (by decide)
  exact ⟨h.2.1, h.2.2.2⟩

end JamesSite
